import Mathlib

/-!
# Verification of the KaBLE experiment-preparation pipeline

A shallow embedding of `run_experiments.py` and of the prompt-extraction
helper of `chatgpt_runner.py`, together with theorems settling the spec's
claims about subject filtering, output writing, runner invocation, summary
aggregation, output-path resolution and error propagation.

Conventions of the embedding:
* Filesystem paths are modelled as `String`s; `sorted(dataset_root.glob(...))`
  becomes a stable sort of the dataset's files by name.
* A JSON value is the inductive `Json`; a parsed JSON object is its field
  association list (Python `dict`s keep insertion order and unique keys).
* A raw dataset line is `Line`: blank, malformed (non-blank text that is not
  valid JSON), or a parsed object.
* Python exceptions become `Except`/`Option` results: `ScanError` covers the
  `MalformedRecord` / `MissingSubjectField` conditions of the scanner, a
  runner is an `Example → Except ε Unit`, and `_guess_prompt` returns
  `Option String` (`none` is the `MissingPromptField` / `KeyError` case).
* `str.lower()` is modelled by `strLower` (ASCII case mapping, the range the
  corpus and the claims use), `str.strip()` truthiness by "some character is
  not whitespace", and Python's stable `sorted` by insertion sort over the
  code-point order `strLe` — extensionally the same sorted output. These
  custom primitives (rather than sealed library string functions) keep every
  definition kernel-computable so that concrete runs evaluate inside proofs.
* Python `str(v)` is mirrored exactly on JSON scalars; the textual form of a
  container (list/dict) subject is abstracted, since no claim depends on it.
-/

/-- A JSON value, as produced by `json.loads`. Numbers are integers here:
no claim involves fractional payload values. -/
inductive Json where
  | null : Json
  | bool (b : Bool) : Json
  | num (n : Int) : Json
  | str (s : String) : Json
  | arr (elems : List Json) : Json
  | obj (fields : List (String × Json)) : Json

/-- Model of Python `str(v)` for a JSON value standing in a `subject` field.
Scalar cases follow CPython exactly; container cases are abstracted to a
fixed tag (no claim inspects them). -/
def jsonToStr : Json → String
  | .null => "None"
  | .bool b => if b then "True" else "False"
  | .num n => toString n
  | .str s => s
  | .arr _ => "<list>"
  | .obj _ => "<dict>"

/-- Embedding of `Example` from `run_experiments.py`: a payload (parsed JSON object,
kept as its field list) paired with the path of the file it was read from. -/
structure Example where
  payload : List (String × Json)
  source_file : String

/-- Embedding of `Example.subject`, i.e. `str(self.payload["subject"])`. The scanner only
constructs examples whose payload has the key, so the `none` branch is
unreachable on scanner output; Python's `KeyError` is surfaced earlier as a
`ScanError`. -/
def Example.subject (e : Example) : String :=
  match e.payload.lookup "subject" with
  | some v => jsonToStr v
  | none => ""

/-- Embedding of `Example.to_json`, i.e. `data = dict(self.payload)` followed by `data["source_file"] = str(self.source_file)`.
Dict assignment overwrites in place when the key exists and appends a new
entry otherwise. -/
def Example.to_json (e : Example) : List (String × Json) :=
  if (e.payload.lookup "source_file").isSome then
    e.payload.map (fun kv =>
      if kv.1 = "source_file" then (kv.1, Json.str e.source_file) else kv)
  else
    e.payload ++ [("source_file", Json.str e.source_file)]

/-- One raw line of a dataset `.jsonl` file: blank (skipped), non-blank but
not valid JSON (the `MalformedRecord` condition), or a parsed JSON object. -/
inductive Line where
  | blank : Line
  | malformed : Line
  | record (fields : List (String × Json)) : Line

/-- A dataset file: its path (used for the lexicographic enumeration order)
and its lines in file order. -/
structure DatasetFile where
  name : String
  lines : List Line

/-- The error taxonomy of the scanner: `MalformedRecord` (a non-blank line is
not valid JSON) and `MissingSubjectField` (a parsed object lacks `"subject"`),
each carrying the file and 1-based line number where the scan aborted. -/
inductive ScanError where
  | malformedRecord (file : String) (lineNumber : Nat) : ScanError
  | missingSubjectField (file : String) (lineNumber : Nat) : ScanError
deriving DecidableEq, Repr

/-- ASCII lowercase of one character (`str.lower()` on the corpus's
subject names). -/
def charLower (c : Char) : Char :=
  if 'A' ≤ c ∧ c ≤ 'Z' then Char.ofNat (c.toNat + 32) else c

/-- Model of `str.lower()`. -/
def strLower (s : String) : String := ⟨s.data.map charLower⟩

/-- Code-point lexicographic "less or equal" on character lists, the order
Python uses to compare strings. -/
def charListLe : List Char → List Char → Bool
  | [], _ => true
  | _ :: _, [] => false
  | a :: as, b :: bs =>
    if a.toNat < b.toNat then true
    else if b.toNat < a.toNat then false
    else charListLe as bs

/-- Python's `<=` on strings (code-point lexicographic order). -/
def strLe (a b : String) : Bool := charListLe a.data b.data

/-- Model of `sorted(dataset_root.glob("*.jsonl"))`: the dataset's files in
lexicographic path order (insertion sort is stable, like Python's `sorted`,
so it computes the same list). -/
def sortFiles (files : List DatasetFile) : List DatasetFile :=
  files.insertionSort (fun a b => strLe a.name b.name = true)

/-- Model of `{subject.lower() for subject in subject_filter} if subject_filter else None`:
the lowercased allow-set, with both `None` and an empty sequence collapsing
to "no filter" (an empty Python sequence is falsy). -/
def allowedSubjects (subject_filter : Option (List String)) : Option (List String) :=
  match subject_filter with
  | none => none
  | some fs => if fs.isEmpty then none else some (fs.map strLower)

/-- The body of the scanner loop for one line: skip blanks, fail on invalid
JSON, fail on a missing `subject` key, then apply the case-insensitive
subject filter and otherwise yield the `Example`. -/
def scanLine (fileName : String) (lineNumber : Nat)
    (allowed : Option (List String)) : Line → Except ScanError (Option Example)
  | .blank => .ok none
  | .malformed => .error (.malformedRecord fileName lineNumber)
  | .record fields =>
    match fields.lookup "subject" with
    | none => .error (.missingSubjectField fileName lineNumber)
    | some v =>
      match allowed with
      | none => .ok (some ⟨fields, fileName⟩)
      | some allowedList =>
        if strLower (jsonToStr v) ∈ allowedList then .ok (some ⟨fields, fileName⟩)
        else .ok none

/-- The scanner loop over one file's lines, numbering from `start`
(`enumerate(handle, start=1)`), aborting at the first failing line. -/
def scanLines (fileName : String) (allowed : Option (List String)) :
    Nat → List Line → Except ScanError (List Example)
  | _, [] => .ok []
  | n, l :: rest => do
    let ex? ← scanLine fileName n allowed l
    let tail ← scanLines fileName allowed (n + 1) rest
    match ex? with
    | some e => .ok (e :: tail)
    | none => .ok tail

/-- Embedding of `iter_examples`: enumerate the dataset files in sorted order and scan each
file's lines in order. The generator is consumed eagerly by every caller in
the source, so it is embedded as the full list it yields (or the error that
aborts it). -/
def iter_examples (dataset_dir : List DatasetFile)
    (subject_filter : Option (List String)) : Except ScanError (List Example) :=
  let allowed := allowedSubjects subject_filter
  go allowed (sortFiles dataset_dir)
where
  /-- Scan the (already sorted) files left to right, concatenating results. -/
  go (allowed : Option (List String)) : List DatasetFile → Except ScanError (List Example)
    | [] => .ok []
    | f :: rest => do
      let here ← scanLines f.name allowed 1 f.lines
      let there ← go allowed rest
      .ok (here ++ there)

/-- Sort a list of strings (`sorted(...)` on strings). -/
def sortedStrings (l : List String) : List String :=
  l.insertionSort (fun a b => strLe a b = true)

/-- The distinct elements of a list in first-occurrence order: the key order
of a Python `dict` / `Counter` built by iterating the list. -/
def firstDedupAux : Nat → List String → List String
  | _, [] => []
  | 0, _ :: _ => []
  | fuel + 1, a :: rest => a :: firstDedupAux fuel (rest.filter (fun s => s ≠ a))

/-- The function `firstDedup l` runs the recursion with enough fuel for the whole list
(structural recursion on the fuel keeps it kernel-computable). -/
def firstDedup (l : List String) : List String := firstDedupAux l.length l

/-- Embedding of `Counter(example.subject for example in examples)` as an association
list: distinct subjects in first-occurrence order, each with its count. -/
def counterOf (subjects : List String) : List (String × Nat) :=
  (firstDedup subjects).map (fun s => (s, subjects.count s))

/-- Embedding of `discover_subjects`: scan the full corpus with no filter and return the
sorted tuple of distinct subjects observed. -/
def discover_subjects (dataset_dir : List DatasetFile) :
    Except ScanError (List String) :=
  (iter_examples dataset_dir none).map
    (fun exs => sortedStrings (firstDedup (exs.map Example.subject)))

/-- Embedding of `_build_output_path`: an explicit path is used verbatim (its
`expanduser().resolve()` normalization is modelled as the identity);
otherwise the path is `outputs/<stem>.jsonl` with the stem derived from the
requested subjects. The `mkdir` side effects do not influence the returned
path and are not modelled. -/
def build_output_path (subjects : Option (List String))
    (output_path : Option String) : String :=
  match output_path with
  | some p => p
  | none =>
    let stem :=
      match subjects with
      | none => "all-subjects"
      | some ss =>
        if ss.length = 1 then strLower ss.headI
        else "-".intercalate (sortedStrings (ss.map strLower))
    "outputs/" ++ stem ++ ".jsonl"

/-- Embedding of `RunSummary` from `run_experiments.py`. `subjects` is a tuple and
`subject_counts` a dict in the source; they are kept as lists here
(`subject_counts` in `Counter` key order, i.e. first occurrence). -/
structure RunSummary where
  total_examples : Nat
  subjects : List String
  subject_counts : List (String × Nat)
  output_path : String

/-- One observable step of the write loop: a record written to the output
file (the `json.dump` of an example), or the runner invoked on an example. -/
inductive Event where
  | write (e : Example) : Event
  | invoke (e : Example) : Event

/-- The examples whose records a trace wrote, in trace order. -/
def writtenExs (events : List Event) : List Example :=
  events.filterMap (fun ev => match ev with | .write e => some e | _ => none)

/-- The examples a trace passed to the runner, in trace order. -/
def invokedExs (events : List Event) : List Example :=
  events.filterMap (fun ev => match ev with | .invoke e => some e | _ => none)

/-- The `with output_file.open("w") ... for example in examples:` loop of
`run_experiments`: write each example's record, then (when a runner is
supplied) invoke the runner on it; a runner exception aborts the loop right
after the write that preceded it. Returns the event trace and the runner
error, if one was raised. -/
def writeLoop {ε : Type} (runner : Option (Example → Except ε Unit)) :
    List Example → List Event × Option ε
  | [] => ([], none)
  | e :: rest =>
    match runner with
    | none =>
      let (tail, err) := writeLoop none rest
      (Event.write e :: tail, err)
    | some r =>
      match r e with
      | .error err => ([Event.write e], some err)
      | .ok _ =>
        let (tail, err) := writeLoop (some r) rest
        (Event.write e :: Event.invoke e :: tail, err)

/-- The observable outcome of one `run_experiments` call: the write/invoke
trace, the runner exception if one escaped (the Python function re-raises
it), and the `RunSummary` — present exactly when no runner exception
occurred. -/
structure RunResult (ε : Type) where
  events : List Event
  runnerError : Option ε
  summary : Option RunSummary

/-- Embedding of `run_experiments`: resolve the output path, materialize the filtered
examples (`list(iter_examples(...))`), tally `Counter` counts, stream the
records to the output file invoking the runner after each write, and build
the summary. A `ScanError` from the (eagerly consumed) generator propagates;
a runner exception propagates after the writes made so far, so no summary is
produced. The source function has no maximum-example-count parameter. -/
def run_experiments {ε : Type} (dataset_dir : List DatasetFile)
    (subjects : Option (List String)) (output_path : Option String)
    (runner : Option (Example → Except ε Unit)) :
    Except ScanError (RunResult ε) := do
  let output_file := build_output_path subjects output_path
  let examples ← iter_examples dataset_dir subjects
  let (events, err) := writeLoop runner examples
  match err with
  | some e => .ok { events := events, runnerError := some e, summary := none }
  | none =>
    .ok { events := events, runnerError := none,
          summary := some
            { total_examples := examples.length
              subjects := sortedStrings (firstDedup (examples.map Example.subject))
              subject_counts := counterOf (examples.map Example.subject)
              output_path := output_file } }

/-- Embedding of `_PROMPT_FIELDS` from `chatgpt_runner.py`. -/
def _PROMPT_FIELDS : List String := ["prompt", "query", "question", "input"]

/-- One iteration of the `_guess_prompt` loop: `payload.get(field)` accepted
iff it is a string with non-blank `strip()`. -/
def promptValue (payload : List (String × Json)) (field : String) : Option String :=
  match payload.lookup field with
  | some (.str s) => if s.data.all Char.isWhitespace then none else some s
  | _ => none

/-- Embedding of `_guess_prompt`: return the value of the first prompt field that holds a
non-blank string; `none` models the raised `KeyError` (the
`MissingPromptField` condition). -/
def guess_prompt (payload : List (String × Json)) : Option String :=
  _PROMPT_FIELDS.findSome? (promptValue payload)

/-! ## Library of facts about the embedded operations -/

theorem charListLe_trans : ∀ {a b c : List Char},
    charListLe a b = true → charListLe b c = true → charListLe a c = true
  | [], _, _, _, _ => rfl
  | _ :: _, [], _, h, _ => by simp [charListLe] at h
  | _ :: _, _ :: _, [], _, h => by simp [charListLe] at h
  | a :: as, b :: bs, c :: cs, h1, h2 => by
    simp only [charListLe] at h1 h2 ⊢
    by_cases hab : a.toNat < b.toNat
    · by_cases hbc : b.toNat < c.toNat
      · rw [if_pos (Nat.lt_trans hab hbc)]
      · rw [if_neg hbc] at h2
        by_cases hcb : c.toNat < b.toNat
        · simp [hcb] at h2
        · have hbceq : b.toNat = c.toNat := Nat.le_antisymm (Nat.le_of_not_lt hcb) (Nat.le_of_not_lt hbc)
          rw [if_pos (hbceq ▸ hab)]
    · rw [if_neg hab] at h1
      by_cases hba : b.toNat < a.toNat
      · simp [hba] at h1
      · rw [if_neg hba] at h1
        have habeq : a.toNat = b.toNat := Nat.le_antisymm (Nat.le_of_not_lt hba) (Nat.le_of_not_lt hab)
        by_cases hbc : b.toNat < c.toNat
        · rw [if_pos (habeq ▸ hbc)]
        · rw [if_neg hbc] at h2
          by_cases hcb : c.toNat < b.toNat
          · simp [hcb] at h2
          · rw [if_neg hcb] at h2
            rw [if_neg (habeq ▸ hbc), if_neg (fun h => hcb (habeq ▸ h))]
            exact charListLe_trans h1 h2

theorem charListLe_total : ∀ (a b : List Char),
    charListLe a b = true ∨ charListLe b a = true
  | [], _ => Or.inl rfl
  | _ :: _, [] => Or.inr rfl
  | a :: as, b :: bs => by
    simp only [charListLe]
    by_cases hab : a.toNat < b.toNat
    · exact Or.inl (by rw [if_pos hab])
    · by_cases hba : b.toNat < a.toNat
      · exact Or.inr (by rw [if_pos hba])
      · rcases charListLe_total as bs with h | h
        · exact Or.inl (by rw [if_neg hab, if_neg hba]; exact h)
        · exact Or.inr (by rw [if_neg hba, if_neg hab]; exact h)

theorem charListLe_antisymm : ∀ {a b : List Char},
    charListLe a b = true → charListLe b a = true → a = b
  | [], [], _, _ => rfl
  | [], _ :: _, _, h => by simp [charListLe] at h
  | _ :: _, [], h, _ => by simp [charListLe] at h
  | a :: as, b :: bs, h1, h2 => by
    simp only [charListLe] at h1 h2
    by_cases hab : a.toNat < b.toNat
    · rw [if_neg (Nat.lt_asymm hab), if_pos hab] at h2
      simp at h2
    · rw [if_neg hab] at h1
      by_cases hba : b.toNat < a.toNat
      · simp [hba] at h1
      · rw [if_neg hba] at h1
        rw [if_neg hba, if_neg hab] at h2
        have heq : a = b := Char.ext (UInt32.ext (Nat.le_antisymm
          (Nat.le_of_not_lt hba) (Nat.le_of_not_lt hab)))
        rw [heq, charListLe_antisymm h1 h2]

theorem strLe_trans {a b c : String} (h1 : strLe a b = true)
    (h2 : strLe b c = true) : strLe a c = true :=
  charListLe_trans h1 h2

theorem strLe_total (a b : String) : strLe a b = true ∨ strLe b a = true :=
  charListLe_total a.data b.data

theorem strLe_antisymm {a b : String} (h1 : strLe a b = true)
    (h2 : strLe b a = true) : a = b := by
  have h := charListLe_antisymm h1 h2
  cases a; cases b
  exact congrArg String.mk h

theorem sortedStrings_sorted (l : List String) :
    (sortedStrings l).Pairwise (fun a b => strLe a b = true) := by
  haveI : IsTotal String (fun a b => strLe a b = true) := ⟨strLe_total⟩
  haveI : IsTrans String (fun a b => strLe a b = true) :=
    ⟨fun _ _ _ => strLe_trans⟩
  exact List.sorted_insertionSort _ l

theorem sortedStrings_perm (l : List String) : (sortedStrings l).Perm l :=
  List.perm_insertionSort _ l

theorem mem_sortedStrings {x : String} {l : List String} :
    x ∈ sortedStrings l ↔ x ∈ l :=
  (sortedStrings_perm l).mem_iff

theorem sortedStrings_eq_of_perm {l l' : List String} (h : l.Perm l') :
    sortedStrings l = sortedStrings l' := by
  haveI : IsAntisymm String (fun a b => strLe a b = true) :=
    ⟨fun _ _ => strLe_antisymm⟩
  refine List.eq_of_perm_of_sorted (r := fun a b => strLe a b = true) ?_ ?_ ?_
  · exact ((sortedStrings_perm l).trans h).trans (sortedStrings_perm l').symm
  · exact sortedStrings_sorted l
  · exact sortedStrings_sorted l'

theorem mem_firstDedupAux {x : String} : ∀ {fuel : Nat} {l : List String},
    l.length ≤ fuel → (x ∈ firstDedupAux fuel l ↔ x ∈ l) := by
  intro fuel
  induction fuel with
  | zero =>
    intro l hl
    cases l with
    | nil => simp [firstDedupAux]
    | cons a rest => simp at hl
  | succ fuel ih =>
    intro l hl
    cases l with
    | nil => simp [firstDedupAux]
    | cons a rest =>
      have hlen : (rest.filter (fun s => s ≠ a)).length ≤ fuel := by
        have := List.length_filter_le (fun s => decide (s ≠ a)) rest
        simp only [List.length_cons, Nat.succ_le_succ_iff] at hl
        omega
      rw [firstDedupAux]
      by_cases hx : x = a
      · subst hx; simp
      · have ihx := ih hlen
        simp only [List.mem_cons, hx, false_or]
        rw [ihx, List.mem_filter]
        simp [hx]

theorem mem_firstDedup {x : String} {l : List String} :
    x ∈ firstDedup l ↔ x ∈ l :=
  mem_firstDedupAux (Nat.le_refl _)

theorem firstDedupAux_nodup : ∀ (fuel : Nat) (l : List String),
    l.length ≤ fuel → (firstDedupAux fuel l).Nodup := by
  intro fuel
  induction fuel with
  | zero =>
    intro l hl
    cases l with
    | nil => simp [firstDedupAux]
    | cons a rest => simp at hl
  | succ fuel ih =>
    intro l hl
    cases l with
    | nil => simp [firstDedupAux]
    | cons a rest =>
      have hlen : (rest.filter (fun s => s ≠ a)).length ≤ fuel := by
        have := List.length_filter_le (fun s => decide (s ≠ a)) rest
        simp only [List.length_cons, Nat.succ_le_succ_iff] at hl
        omega
      rw [firstDedupAux]
      refine List.nodup_cons.2 ⟨?_, ih _ hlen⟩
      intro hmem
      have h1 : a ∈ rest.filter (fun s => s ≠ a) :=
        (mem_firstDedupAux hlen).1 hmem
      have h2 := (List.mem_filter.1 h1).2
      simp at h2

theorem firstDedup_nodup (l : List String) : (firstDedup l).Nodup :=
  firstDedupAux_nodup _ _ (Nat.le_refl _)

theorem firstDedup_perm_dedup (l : List String) :
    (firstDedup l).Perm l.dedup := by
  refine (List.perm_ext_iff_of_nodup (firstDedup_nodup l) (List.nodup_dedup l)).2 ?_
  intro a
  rw [mem_firstDedup, List.mem_dedup]

theorem counterOf_sum (l : List String) :
    ((counterOf l).map Prod.snd).sum = l.length := by
  have hmap : (counterOf l).map Prod.snd = (firstDedup l).map (fun s => l.count s) := by
    simp [counterOf, List.map_map, Function.comp]
  rw [hmap]
  have hperm : ((firstDedup l).map (fun s => l.count s)).Perm
      (l.dedup.map (fun s => l.count s)) :=
    (firstDedup_perm_dedup l).map _
  rw [hperm.sum_eq]
  simpa using List.sum_map_count_dedup_eq_length l

/-- A dataset line the scanner can get past without failing: blank, or a
parsed object carrying a `subject` key. -/
def lineOk : Line → Bool
  | .blank => true
  | .malformed => false
  | .record p => (p.lookup "subject").isSome

/-- The examples one file contributes to an unfiltered scan: one `Example`
per record line, in file order, paired with the file's path. -/
def fileExamples (f : DatasetFile) : List Example :=
  f.lines.filterMap (fun l => match l with
    | .record p => some ⟨p, f.name⟩
    | _ => none)

theorem scanLines_cons (f : String) (a : Option (List String)) (n : Nat)
    (l : Line) (ls : List Line) :
    scanLines f a n (l :: ls) =
      (scanLine f n a l).bind (fun ex? =>
        (scanLines f a (n + 1) ls).bind (fun tail =>
          match ex? with
          | some e => .ok (e :: tail)
          | none => .ok tail)) := rfl

theorem scanLine_ok_some {f : String} {n : Nat} {a : Option (List String)}
    {l : Line} {e : Example} (h : scanLine f n a l = .ok (some e)) :
    e.source_file = f ∧ l = .record e.payload ∧
      ∃ v, e.payload.lookup "subject" = some v ∧
        ∀ al, a = some al → strLower (jsonToStr v) ∈ al := by
  cases l with
  | blank => simp [scanLine] at h
  | malformed => simp [scanLine] at h
  | record fields =>
    simp only [scanLine] at h
    cases hs : fields.lookup "subject" with
    | none => rw [hs] at h; simp at h
    | some v =>
      rw [hs] at h
      cases a with
      | none =>
        simp only [Except.ok.injEq, Option.some.injEq] at h
        subst h
        exact ⟨rfl, rfl, v, hs, by intro al hal; cases hal⟩
      | some al =>
        by_cases hm : strLower (jsonToStr v) ∈ al
        · simp only [hm, if_pos] at h
          simp only [Except.ok.injEq, Option.some.injEq] at h
          subst h
          refine ⟨rfl, rfl, v, hs, ?_⟩
          intro al' hal'
          cases hal'
          exact hm
        · simp [hm] at h

theorem scanLines_sound {f : String} {a : Option (List String)} :
    ∀ {n : Nat} {ls : List Line} {exs : List Example},
      scanLines f a n ls = .ok exs → ∀ e ∈ exs,
        e.source_file = f ∧ Line.record e.payload ∈ ls ∧
          ∃ v, e.payload.lookup "subject" = some v ∧
            ∀ al, a = some al → strLower (jsonToStr v) ∈ al := by
  intro n ls
  induction ls generalizing n with
  | nil => intro exs h e he; simp [scanLines] at h; subst h; cases he
  | cons l rest ih =>
    intro exs h e he
    rw [scanLines_cons] at h
    cases h1 : scanLine f n a l with
    | error err => rw [h1] at h; simp [Except.bind] at h
    | ok ex? =>
      rw [h1] at h
      cases h2 : scanLines f a (n + 1) rest with
      | error err => rw [h2] at h; simp [Except.bind] at h
      | ok tail =>
        rw [h2] at h
        cases ex? with
        | none =>
          simp only [Except.bind, Except.ok.injEq] at h
          subst h
          obtain ⟨h3, h4, h5⟩ := ih h2 e he
          exact ⟨h3, List.mem_cons_of_mem _ h4, h5⟩
        | some e' =>
          simp only [Except.bind, Except.ok.injEq] at h
          subst h
          rcases List.mem_cons.1 he with he' | he'
          · subst he'
            obtain ⟨h3, h4, h5⟩ := scanLine_ok_some h1
            exact ⟨h3, by rw [h4]; exact List.mem_cons_self _ _, h5⟩
          · obtain ⟨h3, h4, h5⟩ := ih h2 e he'
            exact ⟨h3, List.mem_cons_of_mem _ h4, h5⟩

theorem scanLines_none_good {f : String} :
    ∀ {n : Nat} {ls : List Line}, (∀ l ∈ ls, lineOk l = true) →
      scanLines f none n ls = .ok (ls.filterMap (fun l => match l with
        | Line.record p => some ⟨p, f⟩
        | _ => none)) := by
  intro n ls
  induction ls generalizing n with
  | nil => intro _; rfl
  | cons l rest ih =>
    intro hok
    have hl := hok l (List.mem_cons_self _ _)
    have hrest := fun x hx => hok x (List.mem_cons_of_mem _ hx)
    rw [scanLines_cons, ih hrest]
    cases l with
    | blank => simp [scanLine, Except.bind, List.filterMap_cons]
    | malformed => simp [lineOk] at hl
    | record p =>
      simp only [lineOk, Option.isSome_iff_exists] at hl
      obtain ⟨v, hv⟩ := hl
      simp [scanLine, hv, Except.bind, List.filterMap_cons]

theorem scanLines_ok_of_good {f : String} {a : Option (List String)} :
    ∀ {n : Nat} {ls : List Line}, (∀ l ∈ ls, lineOk l = true) →
      ∃ exs, scanLines f a n ls = .ok exs := by
  intro n ls
  induction ls generalizing n with
  | nil => intro _; exact ⟨[], rfl⟩
  | cons l rest ih =>
    intro hok
    have hl := hok l (List.mem_cons_self _ _)
    obtain ⟨tail, htail⟩ := ih (fun x hx => hok x (List.mem_cons_of_mem _ hx)) (n := n + 1)
    rw [scanLines_cons]
    cases l with
    | blank => exact ⟨tail, by simp [scanLine, Except.bind, htail]⟩
    | malformed => simp [lineOk] at hl
    | record p =>
      simp only [lineOk, Option.isSome_iff_exists] at hl
      obtain ⟨v, hv⟩ := hl
      cases a with
      | none => exact ⟨⟨p, f⟩ :: tail, by simp [scanLine, hv, Except.bind, htail]⟩
      | some al =>
        by_cases hm : strLower (jsonToStr v) ∈ al
        · exact ⟨⟨p, f⟩ :: tail, by simp [scanLine, hv, hm, Except.bind, htail]⟩
        · exact ⟨tail, by simp [scanLine, hv, hm, Except.bind, htail]⟩

theorem scanLines_good_of_ok {f : String} {a : Option (List String)} :
    ∀ {n : Nat} {ls : List Line} {exs : List Example},
      scanLines f a n ls = .ok exs → ∀ l ∈ ls, lineOk l = true := by
  intro n ls
  induction ls generalizing n with
  | nil => intro exs _ l hl; cases hl
  | cons l rest ih =>
    intro exs h x hx
    rw [scanLines_cons] at h
    cases h1 : scanLine f n a l with
    | error err => rw [h1] at h; simp [Except.bind] at h
    | ok ex? =>
      rw [h1] at h
      cases h2 : scanLines f a (n + 1) rest with
      | error err => rw [h2] at h; simp [Except.bind] at h
      | ok tail =>
        rcases List.mem_cons.1 hx with hx' | hx'
        · subst hx'
          cases x with
          | blank => rfl
          | malformed => simp [scanLine] at h1
          | record p =>
            simp only [scanLine] at h1
            cases hs : p.lookup "subject" with
            | none => rw [hs] at h1; simp at h1
            | some v => simp [lineOk, hs]
        · exact ih h2 x hx'

theorem scanLines_error_indep {f : String} {a a' : Option (List String)} :
    ∀ {n : Nat} {ls : List Line} {err : ScanError},
      scanLines f a n ls = .error err → scanLines f a' n ls = .error err := by
  intro n ls
  induction ls generalizing n with
  | nil => intro err h; simp [scanLines] at h
  | cons l rest ih =>
    intro err h
    rw [scanLines_cons] at h
    rw [scanLines_cons]
    cases l with
    | blank =>
      simp only [scanLine, Except.bind] at h ⊢
      cases h2 : scanLines f a (n + 1) rest with
      | error e2 => rw [h2] at h; rw [ih h2]; exact h
      | ok tail => rw [h2] at h; simp at h
    | malformed =>
      simp only [scanLine, Except.bind] at h ⊢
      exact h
    | record p =>
      simp only [scanLine] at h ⊢
      cases hs : p.lookup "subject" with
      | none => rw [hs] at h; exact h
      | some v =>
        rw [hs] at h
        have hcont : ∀ (b : Option (List String)) (tail : List Example),
            scanLines f b (n + 1) rest = .ok tail →
            ∀ (err' : ScanError), (match b with
              | none => Except.ok (some (⟨p, f⟩ : Example))
              | some al =>
                if strLower (jsonToStr v) ∈ al then Except.ok (some (⟨p, f⟩ : Example))
                else Except.ok none).bind (fun ex? =>
                  (scanLines f b (n + 1) rest).bind (fun tail =>
                    match ex? with
                    | some e => Except.ok (e :: tail)
                    | none => Except.ok tail)) ≠ Except.error err' := by
          intro b tail htail err'
          cases b with
          | none => simp [Except.bind, htail]
          | some al =>
            by_cases hm : strLower (jsonToStr v) ∈ al
            · simp [hm, Except.bind, htail]
            · simp [hm, Except.bind, htail]
        cases h2 : scanLines f a (n + 1) rest with
        | error e2 =>
          have h3 := ih h2
          cases a with
          | none =>
            simp only [Except.bind, h2] at h
            cases a' with
            | none => simp only [Except.bind, h3]; exact h
            | some al' =>
              by_cases hm' : strLower (jsonToStr v) ∈ al'
              · simp only [hm', if_pos, Except.bind, h3]; exact h
              · simp only [hm', if_neg, Except.bind, h3, if_false]; exact h
          | some al =>
            by_cases hm : strLower (jsonToStr v) ∈ al
            · simp only [hm, if_pos, Except.bind, h2] at h
              cases a' with
              | none => simp only [Except.bind, h3]; exact h
              | some al' =>
                by_cases hm' : strLower (jsonToStr v) ∈ al'
                · simp only [hm', if_pos, Except.bind, h3]; exact h
                · simp only [hm', if_neg, Except.bind, h3, if_false]; exact h
            · simp only [hm, if_neg, Except.bind, h2, if_false] at h
              cases a' with
              | none => simp only [Except.bind, h3]; exact h
              | some al' =>
                by_cases hm' : strLower (jsonToStr v) ∈ al'
                · simp only [hm', if_pos, Except.bind, h3]; exact h
                · simp only [hm', if_neg, Except.bind, h3, if_false]; exact h
        | ok tail => exact absurd h (hcont a tail h2 err)

theorem scanLines_error_sound {f : String} {a : Option (List String)} :
    ∀ {n : Nat} {ls : List Line} {err : ScanError},
      scanLines f a n ls = .error err →
      ∃ i, (err = .malformedRecord f (n + i) ∧ ls.get? i = some Line.malformed) ∨
        (∃ p, err = .missingSubjectField f (n + i) ∧
          ls.get? i = some (Line.record p) ∧ p.lookup "subject" = none) := by
  intro n ls
  induction ls generalizing n with
  | nil => intro err h; simp [scanLines] at h
  | cons l rest ih =>
    intro err h
    rw [scanLines_cons] at h
    cases l with
    | blank =>
      simp only [scanLine, Except.bind] at h
      cases h2 : scanLines f a (n + 1) rest with
      | error e2 =>
        rw [h2] at h
        cases h
        obtain ⟨i, hi⟩ := ih h2
        refine ⟨i + 1, ?_⟩
        simpa [Nat.add_assoc, Nat.add_comm 1 i] using hi
      | ok tail => rw [h2] at h; simp at h
    | malformed =>
      simp only [scanLine, Except.bind] at h
      cases h
      exact ⟨0, Or.inl ⟨by simp, rfl⟩⟩
    | record p =>
      simp only [scanLine] at h
      cases hs : p.lookup "subject" with
      | none =>
        rw [hs] at h
        simp only [Except.bind] at h
        cases h
        exact ⟨0, Or.inr ⟨p, by simp, rfl, hs⟩⟩
      | some v =>
        rw [hs] at h
        have herr : scanLines f a (n + 1) rest = .error err := by
          cases h2 : scanLines f a (n + 1) rest with
          | error e2 =>
            rw [h2] at h
            cases a with
            | none => simp only [Except.bind] at h; cases h; rfl
            | some al =>
              by_cases hm : strLower (jsonToStr v) ∈ al
              · simp only [hm, if_pos, Except.bind] at h; cases h; rfl
              · simp only [hm, if_neg, if_false, Except.bind] at h; cases h; rfl
          | ok tail =>
            rw [h2] at h
            cases a with
            | none => simp [Except.bind] at h
            | some al =>
              by_cases hm : strLower (jsonToStr v) ∈ al
              · simp [hm, Except.bind] at h
              · simp [hm, Except.bind] at h
        obtain ⟨i, hi⟩ := ih herr
        refine ⟨i + 1, ?_⟩
        simpa [Nat.add_assoc, Nat.add_comm 1 i] using hi

theorem scanLines_filter_sublist {f : String} {al : List String} :
    ∀ {n : Nat} {ls : List Line} {exs all : List Example},
      scanLines f (some al) n ls = .ok exs →
      scanLines f none n ls = .ok all →
      exs.Sublist all := by
  intro n ls
  induction ls generalizing n with
  | nil =>
    intro exs all h1 h2
    simp only [scanLines] at h1 h2
    cases h1; cases h2
    exact List.Sublist.refl _
  | cons l rest ih =>
    intro exs all h1 h2
    rw [scanLines_cons] at h1 h2
    cases l with
    | blank =>
      simp only [scanLine, Except.bind] at h1 h2
      cases ht1 : scanLines f (some al) (n + 1) rest with
      | error e => rw [ht1] at h1; simp at h1
      | ok t1 =>
        cases ht2 : scanLines f none (n + 1) rest with
        | error e => rw [ht2] at h2; simp at h2
        | ok t2 =>
          rw [ht1] at h1; rw [ht2] at h2
          cases h1; cases h2
          exact ih ht1 ht2
    | malformed => simp [scanLine, Except.bind] at h1
    | record p =>
      simp only [scanLine] at h1 h2
      cases hs : p.lookup "subject" with
      | none => rw [hs] at h1; simp [Except.bind] at h1
      | some v =>
        rw [hs] at h1; rw [hs] at h2
        cases ht1 : scanLines f (some al) (n + 1) rest with
        | error e =>
          rw [ht1] at h1
          by_cases hm : strLower (jsonToStr v) ∈ al
          · simp [hm, Except.bind] at h1
          · simp [hm, Except.bind] at h1
        | ok t1 =>
          cases ht2 : scanLines f none (n + 1) rest with
          | error e => rw [ht2] at h2; simp [Except.bind] at h2
          | ok t2 =>
            rw [ht1] at h1; rw [ht2] at h2
            simp only [Except.bind] at h2
            cases h2
            by_cases hm : strLower (jsonToStr v) ∈ al
            · simp only [hm, if_pos, Except.bind] at h1
              cases h1
              exact (ih ht1 ht2).cons₂ _
            · simp only [hm, if_neg, if_false, Except.bind] at h1
              cases h1
              exact (ih ht1 ht2).cons _

theorem go_cons (a : Option (List String)) (f : DatasetFile) (rest : List DatasetFile) :
    iter_examples.go a (f :: rest) =
      (scanLines f.name a 1 f.lines).bind (fun here =>
        (iter_examples.go a rest).bind (fun there => .ok (here ++ there))) := rfl

theorem go_sound {a : Option (List String)} :
    ∀ {fs : List DatasetFile} {exs : List Example},
      iter_examples.go a fs = .ok exs → ∀ e ∈ exs,
        (∃ df ∈ fs, e.source_file = df.name ∧ Line.record e.payload ∈ df.lines) ∧
          ∃ v, e.payload.lookup "subject" = some v ∧
            ∀ al, a = some al → strLower (jsonToStr v) ∈ al := by
  intro fs
  induction fs with
  | nil => intro exs h e he; cases h; cases he
  | cons f rest ih =>
    intro exs h e he
    rw [go_cons] at h
    cases h1 : scanLines f.name a 1 f.lines with
    | error err => rw [h1] at h; simp [Except.bind] at h
    | ok here =>
      rw [h1] at h
      cases h2 : iter_examples.go a rest with
      | error err => rw [h2] at h; simp [Except.bind] at h
      | ok there =>
        rw [h2] at h
        simp only [Except.bind, Except.ok.injEq] at h
        subst h
        rcases List.mem_append.1 he with he' | he'
        · obtain ⟨hsrc, hline, hv⟩ := scanLines_sound h1 e he'
          exact ⟨⟨f, List.mem_cons_self _ _, hsrc, hline⟩, hv⟩
        · obtain ⟨⟨df, hdf, hrest⟩, hv⟩ := ih h2 e he'
          exact ⟨⟨df, List.mem_cons_of_mem _ hdf, hrest⟩, hv⟩

theorem go_ok_of_good {a : Option (List String)} :
    ∀ {fs : List DatasetFile}, (∀ f ∈ fs, ∀ l ∈ f.lines, lineOk l = true) →
      ∃ exs, iter_examples.go a fs = .ok exs := by
  intro fs
  induction fs with
  | nil => intro _; exact ⟨[], rfl⟩
  | cons f rest ih =>
    intro hok
    obtain ⟨here, hhere⟩ :=
      scanLines_ok_of_good (f := f.name) (a := a) (n := 1)
        (hok f (List.mem_cons_self _ _))
    obtain ⟨there, hthere⟩ := ih (fun x hx => hok x (List.mem_cons_of_mem _ hx))
    exact ⟨here ++ there, by rw [go_cons, hhere, hthere]; rfl⟩

theorem go_good_of_ok {a : Option (List String)} :
    ∀ {fs : List DatasetFile} {exs : List Example},
      iter_examples.go a fs = .ok exs →
      ∀ f ∈ fs, ∀ l ∈ f.lines, lineOk l = true := by
  intro fs
  induction fs with
  | nil => intro exs _ f hf; cases hf
  | cons f rest ih =>
    intro exs h x hx
    rw [go_cons] at h
    cases h1 : scanLines f.name a 1 f.lines with
    | error err => rw [h1] at h; simp [Except.bind] at h
    | ok here =>
      rw [h1] at h
      cases h2 : iter_examples.go a rest with
      | error err => rw [h2] at h; simp [Except.bind] at h
      | ok there =>
        rcases List.mem_cons.1 hx with hx' | hx'
        · subst hx'; exact scanLines_good_of_ok h1
        · exact ih h2 x hx'

theorem go_error_indep {a a' : Option (List String)} :
    ∀ {fs : List DatasetFile} {err : ScanError},
      iter_examples.go a fs = .error err → iter_examples.go a' fs = .error err := by
  intro fs
  induction fs with
  | nil => intro err h; cases h
  | cons f rest ih =>
    intro err h
    rw [go_cons] at h
    rw [go_cons]
    cases h1 : scanLines f.name a 1 f.lines with
    | error e1 =>
      rw [h1] at h
      simp only [Except.bind] at h
      cases h
      rw [scanLines_error_indep h1]
      rfl
    | ok here =>
      rw [h1] at h
      cases h2 : iter_examples.go a rest with
      | error e2 =>
        rw [h2] at h
        simp only [Except.bind] at h
        cases h
        cases h1' : scanLines f.name a' 1 f.lines with
        | error e1' =>
          have h1'' : scanLines f.name a 1 f.lines = Except.error e1' :=
            scanLines_error_indep h1'
          exact absurd h1'' (by rw [h1]; simp)
        | ok here' =>
          rw [ih h2]
          rfl
      | ok there => rw [h2] at h; simp [Except.bind] at h

theorem go_error_sound {a : Option (List String)} :
    ∀ {fs : List DatasetFile} {err : ScanError},
      iter_examples.go a fs = .error err →
      ∃ df ∈ fs,
        (∃ m, err = .malformedRecord df.name m ∧
          df.lines.get? (m - 1) = some Line.malformed) ∨
        (∃ m p, err = .missingSubjectField df.name m ∧
          df.lines.get? (m - 1) = some (Line.record p) ∧ p.lookup "subject" = none) := by
  intro fs
  induction fs with
  | nil => intro err h; cases h
  | cons f rest ih =>
    intro err h
    rw [go_cons] at h
    cases h1 : scanLines f.name a 1 f.lines with
    | error e1 =>
      rw [h1] at h
      simp only [Except.bind] at h
      cases h
      obtain ⟨i, hi⟩ := scanLines_error_sound h1
      refine ⟨f, List.mem_cons_self _ _, ?_⟩
      rcases hi with ⟨heq, hget⟩ | ⟨p, heq, hget, hsub⟩
      · exact Or.inl ⟨1 + i, heq, by simpa using hget⟩
      · exact Or.inr ⟨1 + i, p, heq, by simpa using hget, hsub⟩
    | ok here =>
      rw [h1] at h
      cases h2 : iter_examples.go a rest with
      | error e2 =>
        rw [h2] at h
        simp only [Except.bind] at h
        cases h
        obtain ⟨df, hdf, hrest⟩ := ih h2
        exact ⟨df, List.mem_cons_of_mem _ hdf, hrest⟩
      | ok there => rw [h2] at h; simp [Except.bind] at h

theorem go_none_good :
    ∀ {fs : List DatasetFile}, (∀ f ∈ fs, ∀ l ∈ f.lines, lineOk l = true) →
      iter_examples.go none fs = .ok (fs.flatMap fileExamples) := by
  intro fs
  induction fs with
  | nil => intro _; rfl
  | cons f rest ih =>
    intro hok
    rw [go_cons, scanLines_none_good (hok f (List.mem_cons_self _ _)),
      ih (fun x hx => hok x (List.mem_cons_of_mem _ hx))]
    rfl

theorem go_filter_sublist {al : List String} :
    ∀ {fs : List DatasetFile} {exs all : List Example},
      iter_examples.go (some al) fs = .ok exs →
      iter_examples.go none fs = .ok all →
      exs.Sublist all := by
  intro fs
  induction fs with
  | nil =>
    intro exs all h1 h2
    cases h1; cases h2
    exact List.Sublist.refl _
  | cons f rest ih =>
    intro exs all h1 h2
    rw [go_cons] at h1 h2
    cases ha1 : scanLines f.name (some al) 1 f.lines with
    | error e => rw [ha1] at h1; simp [Except.bind] at h1
    | ok here1 =>
      cases ha2 : scanLines f.name none 1 f.lines with
      | error e => rw [ha2] at h2; simp [Except.bind] at h2
      | ok here2 =>
        cases hb1 : iter_examples.go (some al) rest with
        | error e => rw [ha1, hb1] at h1; simp [Except.bind] at h1
        | ok there1 =>
          cases hb2 : iter_examples.go none rest with
          | error e => rw [ha2, hb2] at h2; simp [Except.bind] at h2
          | ok there2 =>
            rw [ha1, hb1] at h1
            rw [ha2, hb2] at h2
            simp only [Except.bind, Except.ok.injEq] at h1 h2
            subst h1; subst h2
            exact (scanLines_filter_sublist ha1 ha2).append (ih hb1 hb2)

theorem writtenExs_append (a b : List Event) :
    writtenExs (a ++ b) = writtenExs a ++ writtenExs b :=
  List.filterMap_append _ _ _

theorem invokedExs_append (a b : List Event) :
    invokedExs (a ++ b) = invokedExs a ++ invokedExs b :=
  List.filterMap_append _ _ _

theorem writtenExs_pairs (exs : List Example) :
    writtenExs (exs.flatMap (fun e => [Event.write e, Event.invoke e])) = exs := by
  induction exs with
  | nil => rfl
  | cons e rest ih =>
    simp only [List.flatMap_cons]
    rw [writtenExs_append, ih]
    rfl

theorem invokedExs_pairs (exs : List Example) :
    invokedExs (exs.flatMap (fun e => [Event.write e, Event.invoke e])) = exs := by
  induction exs with
  | nil => rfl
  | cons e rest ih =>
    simp only [List.flatMap_cons]
    rw [invokedExs_append, ih]
    rfl

theorem writtenExs_map_write (exs : List Example) :
    writtenExs (exs.map Event.write) = exs := by
  induction exs with
  | nil => rfl
  | cons e rest ih =>
    simp only [List.map_cons]
    show e :: writtenExs (rest.map Event.write) = e :: rest
    rw [ih]

theorem writeLoop_none {ε : Type} (exs : List Example) :
    writeLoop (ε := ε) none exs = (exs.map Event.write, none) := by
  induction exs with
  | nil => rfl
  | cons e rest ih => simp [writeLoop, ih]

theorem writeLoop_some_noerr {ε : Type} {r : Example → Except ε Unit} :
    ∀ {exs : List Example}, (writeLoop (some r) exs).2 = none →
      (writeLoop (some r) exs).1 = exs.flatMap (fun e => [Event.write e, Event.invoke e]) ∧
        ∀ e ∈ exs, r e = .ok () := by
  intro exs
  induction exs with
  | nil => intro _; exact ⟨rfl, by intro e he; cases he⟩
  | cons e rest ih =>
    intro h
    cases hr : r e with
    | error err => simp [writeLoop, hr] at h
    | ok u =>
      simp only [writeLoop, hr] at h ⊢
      obtain ⟨h1, h2⟩ := ih h
      constructor
      · rw [h1]; rfl
      · intro x hx
        rcases List.mem_cons.1 hx with hx' | hx'
        · subst hx'; cases u; exact hr
        · exact h2 x hx'

theorem writeLoop_some_err {ε : Type} {r : Example → Except ε Unit} :
    ∀ {exs : List Example} {err : ε}, (writeLoop (some r) exs).2 = some err →
      ∃ pre last suff, exs = pre ++ last :: suff ∧
        (∀ e ∈ pre, r e = .ok ()) ∧ r last = .error err ∧
        (writeLoop (some r) exs).1 =
          pre.flatMap (fun e => [Event.write e, Event.invoke e]) ++ [Event.write last] := by
  intro exs
  induction exs with
  | nil => intro err h; simp [writeLoop] at h
  | cons e rest ih =>
    intro err h
    cases hr : r e with
    | error err' =>
      simp only [writeLoop, hr] at h ⊢
      cases h
      refine ⟨[], e, rest, rfl, ?_, hr, rfl⟩
      intro x hx
      cases hx
    | ok u =>
      simp only [writeLoop, hr] at h ⊢
      obtain ⟨pre, last, suff, heq, hpre, hlast, hloop⟩ := ih h
      refine ⟨e :: pre, last, suff, by rw [heq]; rfl, ?_, hlast, ?_⟩
      · intro x hx
        rcases List.mem_cons.1 hx with hx' | hx'
        · subst hx'; cases u; exact hr
        · exact hpre x hx'
      · rw [hloop]
        rfl

theorem writeLoop_written_sublist {ε : Type} (runner : Option (Example → Except ε Unit)) :
    ∀ (exs : List Example), (writtenExs (writeLoop runner exs).1).Sublist exs := by
  intro exs
  cases runner with
  | none =>
    rw [writeLoop_none, writtenExs_map_write]
  | some r =>
    cases herr : (writeLoop (some r) exs).2 with
    | none =>
      rw [(writeLoop_some_noerr herr).1, writtenExs_pairs]
    | some err =>
      obtain ⟨pre, last, suff, heq, _, _, hloop⟩ := writeLoop_some_err herr
      rw [hloop, writtenExs_append, writtenExs_pairs]
      rw [heq]
      exact ((List.nil_sublist suff).cons₂ last).append_left pre

theorem lookup_map_source_file (s : String) :
    ∀ (l : List (String × Json)) (k : String), k ≠ "source_file" →
      (l.map (fun kv =>
        if kv.1 = "source_file" then (kv.1, Json.str s) else kv)).lookup k = l.lookup k := by
  intro l
  induction l with
  | nil => intro k _; rfl
  | cons kv rest ih =>
    intro k hk
    obtain ⟨k1, v1⟩ := kv
    by_cases h1 : k1 = "source_file"
    · subst h1
      simp only [List.map_cons]
      show List.lookup k (("source_file", Json.str s) ::
          rest.map (fun kv => if kv.1 = "source_file" then (kv.1, Json.str s) else kv)) =
        List.lookup k (("source_file", v1) :: rest)
      simp only [List.lookup_cons]
      cases hkk : k == "source_file" with
      | true => exact absurd (eq_of_beq hkk) hk
      | false => exact ih k hk
    · simp only [List.map_cons, if_neg h1, List.lookup_cons]
      cases hkk : k == k1 with
      | true => rfl
      | false => exact ih k hk

theorem lookup_append_source_file (s : String) :
    ∀ (l : List (String × Json)) (k : String), k ≠ "source_file" →
      (l ++ [("source_file", Json.str s)]).lookup k = l.lookup k := by
  intro l
  induction l with
  | nil =>
    intro k hk
    simp only [List.nil_append, List.lookup_cons, List.lookup_nil]
    have hne : (k == "source_file") = false := by simp [hk]
    rw [hne]
  | cons kv rest ih =>
    intro k hk
    obtain ⟨k1, v1⟩ := kv
    simp only [List.cons_append, List.lookup_cons]
    cases hkk : k == k1 with
    | true => rfl
    | false => exact ih k hk

theorem to_json_lookup (e : Example) (k : String) (hk : k ≠ "source_file") :
    e.to_json.lookup k = e.payload.lookup k := by
  unfold Example.to_json
  by_cases hsf : (e.payload.lookup "source_file").isSome
  · rw [if_pos hsf]
    exact lookup_map_source_file e.source_file e.payload k hk
  · rw [if_neg hsf]
    exact lookup_append_source_file e.source_file e.payload k hk

theorem run_experiments_eq {ε : Type} (ds : List DatasetFile)
    (subj : Option (List String)) (out : Option String)
    (runner : Option (Example → Except ε Unit)) :
    run_experiments ds subj out runner =
      (iter_examples ds subj).bind (fun exs =>
        match (writeLoop runner exs).2 with
        | some e => .ok
            { events := (writeLoop runner exs).1, runnerError := some e, summary := none }
        | none => .ok
            { events := (writeLoop runner exs).1, runnerError := none,
              summary := some
                { total_examples := exs.length
                  subjects := sortedStrings (firstDedup (exs.map Example.subject))
                  subject_counts := counterOf (exs.map Example.subject)
                  output_path := build_output_path subj out } }) := rfl

theorem run_ok_elim {ε : Type} {ds : List DatasetFile} {subj : Option (List String)}
    {out : Option String} {runner : Option (Example → Except ε Unit)} {res : RunResult ε}
    (h : run_experiments ds subj out runner = .ok res) :
    ∃ exs, iter_examples ds subj = .ok exs ∧
      res.events = (writeLoop runner exs).1 ∧
      res.runnerError = (writeLoop runner exs).2 ∧
      (∀ err, (writeLoop runner exs).2 = some err → res.summary = none) ∧
      ((writeLoop runner exs).2 = none → res.summary = some
        { total_examples := exs.length
          subjects := sortedStrings (firstDedup (exs.map Example.subject))
          subject_counts := counterOf (exs.map Example.subject)
          output_path := build_output_path subj out }) := by
  rw [run_experiments_eq] at h
  cases hit : iter_examples ds subj with
  | error err => rw [hit] at h; simp [Except.bind] at h
  | ok exs =>
    rw [hit] at h
    refine ⟨exs, rfl, ?_⟩
    cases herr : (writeLoop runner exs).2 with
    | some e =>
      rw [Except.bind] at h
      simp only [herr] at h
      cases h
      refine ⟨rfl, rfl, fun err _ => rfl, ?_⟩
      intro h'
      cases h'
    | none =>
      rw [Except.bind] at h
      simp only [herr] at h
      cases h
      refine ⟨rfl, rfl, ?_, fun _ => rfl⟩
      intro err h'
      cases h'

theorem iter_examples_def (ds : List DatasetFile) (subj : Option (List String)) :
    iter_examples ds subj = iter_examples.go (allowedSubjects subj) (sortFiles ds) := rfl

/-! ## The claims -/

/-- C1: for every dataset directory and every non-empty requested subject
set, every example whose record `run_experiments` writes to the output file
has a subject that is case-insensitively equal to one of the requested
names (so no written record has a subject outside the requested set), and
the record is the example's payload written without normalization: every
field other than the added `source_file` is looked up unchanged. -/
theorem run_written_subjects_match_filter {ε : Type} (ds : List DatasetFile)
    (fs : List String) (out : Option String)
    (runner : Option (Example → Except ε Unit)) (res : RunResult ε)
    (hfs : fs ≠ []) (hrun : run_experiments ds (some fs) out runner = .ok res) :
    ∀ e ∈ writtenExs res.events,
      ∃ v, e.payload.lookup "subject" = some v ∧
        strLower (jsonToStr v) ∈ fs.map strLower ∧
        ∀ k, k ≠ "source_file" → e.to_json.lookup k = e.payload.lookup k := by
  obtain ⟨exs, hiter, hev, _, _, _⟩ := run_ok_elim hrun
  intro e he
  rw [hev] at he
  have hmem : e ∈ exs := (writeLoop_written_sublist runner exs).subset he
  rw [iter_examples_def] at hiter
  have hallow : allowedSubjects (some fs) = some (fs.map strLower) := by
    have hne : ¬ (fs.isEmpty = true) := by
      simp only [List.isEmpty_iff]
      exact hfs
    show (if fs.isEmpty = true then none else some (fs.map strLower)) = _
    rw [if_neg hne]
  rw [hallow] at hiter
  obtain ⟨_, v, hv, hin⟩ := go_sound hiter e hmem
  exact ⟨v, hv, hin _ rfl, fun k hk => to_json_lookup e k hk⟩

/-- C1 witness: a two-file corpus filtered to `["biomedicine"]`; the single
written record is the BioMedicine one: its subject is case-insensitively in
the requested set and its `prompt` field is written unchanged. -/
theorem run_written_subjects_match_filter_witness :
    ∃ v, (⟨[("subject", Json.str "BioMedicine"),
            ("prompt", Json.str "What is DNA?")], "a.jsonl"⟩ : Example).payload.lookup
        "subject" = some v ∧
      strLower (jsonToStr v) ∈ ["biomedicine"].map strLower ∧
      (⟨[("subject", Json.str "BioMedicine"),
         ("prompt", Json.str "What is DNA?")], "a.jsonl"⟩ : Example).to_json.lookup
        "prompt" =
      (⟨[("subject", Json.str "BioMedicine"),
         ("prompt", Json.str "What is DNA?")], "a.jsonl"⟩ : Example).payload.lookup
        "prompt" := by
  obtain ⟨v, hv, hm, hk⟩ :=
    run_written_subjects_match_filter
      [⟨"b.jsonl", [Line.record [("subject", Json.str "Math"),
                                 ("prompt", Json.str "2+2?")]]⟩,
       ⟨"a.jsonl", [Line.blank, Line.record [("subject", Json.str "BioMedicine"),
                                             ("prompt", Json.str "What is DNA?")]]⟩]
      ["biomedicine"] none (none : Option (Example → Except Unit Unit)) _
      (List.cons_ne_nil _ _) rfl
      ⟨[("subject", Json.str "BioMedicine"),
        ("prompt", Json.str "What is DNA?")], "a.jsonl"⟩
      (List.mem_cons_self _ _)
  exact ⟨v, hv, hm, hk "prompt" (by decide)⟩

theorem writeLoop_noerr_written {ε : Type} {runner : Option (Example → Except ε Unit)}
    {exs : List Example} (h : (writeLoop runner exs).2 = none) :
    writtenExs (writeLoop runner exs).1 = exs := by
  cases runner with
  | none => rw [writeLoop_none, writtenExs_map_write]
  | some r => rw [(writeLoop_some_noerr h).1, writtenExs_pairs]

/-- C2: for every `RunSummary` returned by `run_experiments`, the values of
`subject_counts` sum to `total_examples`, and `subjects` is the sorted
deduplicated tuple of the subjects actually observed among the written
records (not the requested filter set): a subject is in `subjects` exactly
when some written example carries it. -/
theorem run_summary_invariants {ε : Type} (ds : List DatasetFile)
    (subj : Option (List String)) (out : Option String)
    (runner : Option (Example → Except ε Unit)) (res : RunResult ε)
    (smry : RunSummary) (hrun : run_experiments ds subj out runner = .ok res)
    (hsum : res.summary = some smry) :
    (smry.subject_counts.map Prod.snd).sum = smry.total_examples ∧
      smry.subjects.Pairwise (fun a b => strLe a b = true) ∧
      smry.subjects.Nodup ∧
      ∀ x, x ∈ smry.subjects ↔ x ∈ (writtenExs res.events).map Example.subject := by
  obtain ⟨exs, _, hev, _, herr1, herr2⟩ := run_ok_elim hrun
  cases hl : (writeLoop runner exs).2 with
  | some err =>
    rw [herr1 err hl] at hsum
    cases hsum
  | none =>
    rw [herr2 hl] at hsum
    cases hsum
    refine ⟨?_, sortedStrings_sorted _, ?_, ?_⟩
    · have h := counterOf_sum (exs.map Example.subject)
      simpa using h
    · exact (sortedStrings_perm _).nodup_iff.2 (firstDedup_nodup _)
    · intro x
      rw [hev, writeLoop_noerr_written hl, mem_sortedStrings, mem_firstDedup]

/-- C2 witness: requesting `{Math, Chemistry}` over a corpus that only
contains `Math` yields a summary whose `subjects` tuple is `["Math"]`, with
the count sum equal to `total_examples`. -/
theorem run_summary_invariants_witness :
    ((([("Math", 1)] : List (String × Nat)).map Prod.snd).sum = 1 ∧
      (["Math"] : List String).Pairwise (fun a b => strLe a b = true) ∧
      (["Math"] : List String).Nodup ∧
      ∀ x, x ∈ (["Math"] : List String) ↔
        x ∈ (writtenExs (RunResult.events
          ({ events := [Event.write ⟨[("subject", Json.str "Math")], "a.jsonl"⟩],
             runnerError := none,
             summary := some { total_examples := 1, subjects := ["Math"],
                               subject_counts := [("Math", 1)],
                               output_path := "outputs/chemistry-math.jsonl" } } :
            RunResult Unit))).map
          Example.subject) :=
  run_summary_invariants
    [⟨"a.jsonl", [Line.record [("subject", Json.str "Math")]]⟩]
    (some ["Math", "Chemistry"]) none (none : Option (Example → Except Unit Unit)) _
    { total_examples := 1, subjects := ["Math"],
      subject_counts := [("Math", 1)],
      output_path := "outputs/chemistry-math.jsonl" }
    rfl rfl

theorem invokedExs_single_write (e : Example) :
    invokedExs [Event.write e] = [] := rfl

/-- C3: with a runner supplied, the trace of a successful `run_experiments`
call alternates write/invoke pairs: the runner runs exactly once per
written example, immediately after that example's write, in write order;
only written (hence filter-surviving) examples ever reach the runner; and a
runner exception is not suppressed: the trace ends at the failing example's
write and no `RunSummary` is produced. -/
theorem runner_invocation_discipline {ε : Type} (ds : List DatasetFile)
    (subj : Option (List String)) (out : Option String)
    (r : Example → Except ε Unit) (res : RunResult ε)
    (hrun : run_experiments ds subj out (some r) = .ok res) :
    (res.runnerError = none →
       res.events = (writtenExs res.events).flatMap
         (fun e => [Event.write e, Event.invoke e]) ∧
       invokedExs res.events = writtenExs res.events ∧
       res.summary.isSome) ∧
    (∀ err, res.runnerError = some err →
       res.summary = none ∧
       ∃ last, res.events = (invokedExs res.events).flatMap
           (fun e => [Event.write e, Event.invoke e]) ++ [Event.write last] ∧
         r last = .error err ∧
         writtenExs res.events = invokedExs res.events ++ [last]) ∧
    (∀ e ∈ invokedExs res.events, e ∈ writtenExs res.events ∧ r e = .ok ()) := by
  obtain ⟨exs, _, hev, herrEq, herr1, herr2⟩ := run_ok_elim hrun
  cases hl : (writeLoop (some r) exs).2 with
  | none =>
    obtain ⟨hloop, hok⟩ := writeLoop_some_noerr hl
    have hwr : writtenExs res.events = exs := by
      rw [hev]
      exact writeLoop_noerr_written hl
    have hinv : invokedExs res.events = exs := by
      rw [hev, hloop]
      exact invokedExs_pairs exs
    refine ⟨?_, ?_, ?_⟩
    · intro _
      refine ⟨?_, ?_, ?_⟩
      · rw [hwr, hev, hloop]
      · rw [hwr, hinv]
      · rw [herr2 hl]
        rfl
    · intro err habs
      rw [herrEq, hl] at habs
      cases habs
    · intro e he
      rw [hinv] at he
      exact ⟨by rw [hwr]; exact he, hok e he⟩
  | some err0 =>
    obtain ⟨pre, last, suff, _, hpre, hlast, hloop⟩ := writeLoop_some_err hl
    have hwr : writtenExs res.events = pre ++ [last] := by
      rw [hev, hloop, writtenExs_append, writtenExs_pairs]
      rfl
    have hinv : invokedExs res.events = pre := by
      rw [hev, hloop, invokedExs_append, invokedExs_pairs, invokedExs_single_write,
        List.append_nil]
    refine ⟨?_, ?_, ?_⟩
    · intro habs
      rw [herrEq, hl] at habs
      cases habs
    · intro err herr
      rw [herrEq, hl] at herr
      cases herr
      refine ⟨herr1 err0 hl, last, ?_, hlast, by rw [hwr, hinv]⟩
      rw [hinv, hev, hloop]
    · intro e he
      rw [hinv] at he
      refine ⟨?_, hpre e he⟩
      rw [hwr]
      exact List.mem_append_left _ he

/-- C3 witness: a one-example corpus with an always-succeeding runner; the
trace is exactly `[write, invoke]` for that example and a summary exists.
(The stated trace and options are the definitional projections of the
concrete `RunResult` that the run returns.) -/
theorem runner_invocation_discipline_witness :
    ((none : Option Unit) = none →
      [Event.write ⟨[("subject", Json.str "Math")], "a.jsonl"⟩,
       Event.invoke ⟨[("subject", Json.str "Math")], "a.jsonl"⟩] =
        (writtenExs [Event.write ⟨[("subject", Json.str "Math")], "a.jsonl"⟩,
                     Event.invoke ⟨[("subject", Json.str "Math")], "a.jsonl"⟩]).flatMap
          (fun e => [Event.write e, Event.invoke e]) ∧
      invokedExs [Event.write ⟨[("subject", Json.str "Math")], "a.jsonl"⟩,
                  Event.invoke ⟨[("subject", Json.str "Math")], "a.jsonl"⟩] =
        writtenExs [Event.write ⟨[("subject", Json.str "Math")], "a.jsonl"⟩,
                    Event.invoke ⟨[("subject", Json.str "Math")], "a.jsonl"⟩] ∧
      (some { total_examples := 1, subjects := ["Math"],
              subject_counts := [("Math", 1)],
              output_path := "outputs/all-subjects.jsonl" } : Option RunSummary).isSome) ∧
    (∀ err : Unit, (none : Option Unit) = some err →
      (some { total_examples := 1, subjects := ["Math"],
              subject_counts := [("Math", 1)],
              output_path := "outputs/all-subjects.jsonl" } : Option RunSummary) = none ∧
      ∃ last, [Event.write ⟨[("subject", Json.str "Math")], "a.jsonl"⟩,
               Event.invoke ⟨[("subject", Json.str "Math")], "a.jsonl"⟩] =
          (invokedExs [Event.write ⟨[("subject", Json.str "Math")], "a.jsonl"⟩,
                       Event.invoke ⟨[("subject", Json.str "Math")], "a.jsonl"⟩]).flatMap
            (fun e => [Event.write e, Event.invoke e]) ++ [Event.write last] ∧
        (fun _ : Example => (Except.ok () : Except Unit Unit)) last = .error err ∧
        writtenExs [Event.write ⟨[("subject", Json.str "Math")], "a.jsonl"⟩,
                    Event.invoke ⟨[("subject", Json.str "Math")], "a.jsonl"⟩] =
          invokedExs [Event.write ⟨[("subject", Json.str "Math")], "a.jsonl"⟩,
                      Event.invoke ⟨[("subject", Json.str "Math")], "a.jsonl"⟩] ++ [last]) ∧
    (∀ e ∈ invokedExs [Event.write ⟨[("subject", Json.str "Math")], "a.jsonl"⟩,
                       Event.invoke ⟨[("subject", Json.str "Math")], "a.jsonl"⟩],
      e ∈ writtenExs [Event.write ⟨[("subject", Json.str "Math")], "a.jsonl"⟩,
                      Event.invoke ⟨[("subject", Json.str "Math")], "a.jsonl"⟩] ∧
        (fun _ : Example => (Except.ok () : Except Unit Unit)) e = .ok ()) :=
  runner_invocation_discipline
    [⟨"a.jsonl", [Line.record [("subject", Json.str "Math")]]⟩]
    none none (fun _ => Except.ok ()) _ rfl

/-- C4 (code-bug evidence): the embedded `run_experiments` — faithful to the
source, whose signature has no maximum-example-count parameter — writes
every matching example. On a corpus of six matching examples all six are
written and `total_examples = 6`, although the UI caller requests
`max_examples = 5` in test mode (and passes the keyword on every call,
which the source function rejects outright). -/
theorem run_experiments_has_no_max_cutoff :
    run_experiments
      [⟨"a.jsonl",
        [Line.record [("subject", Json.str "Math"), ("q", Json.num 1)],
         Line.record [("subject", Json.str "Math"), ("q", Json.num 2)],
         Line.record [("subject", Json.str "Math"), ("q", Json.num 3)],
         Line.record [("subject", Json.str "Math"), ("q", Json.num 4)],
         Line.record [("subject", Json.str "Math"), ("q", Json.num 5)],
         Line.record [("subject", Json.str "Math"), ("q", Json.num 6)]]⟩]
      none none (none : Option (Example → Except Unit Unit)) =
      .ok { events :=
              [Event.write ⟨[("subject", Json.str "Math"), ("q", Json.num 1)], "a.jsonl"⟩,
               Event.write ⟨[("subject", Json.str "Math"), ("q", Json.num 2)], "a.jsonl"⟩,
               Event.write ⟨[("subject", Json.str "Math"), ("q", Json.num 3)], "a.jsonl"⟩,
               Event.write ⟨[("subject", Json.str "Math"), ("q", Json.num 4)], "a.jsonl"⟩,
               Event.write ⟨[("subject", Json.str "Math"), ("q", Json.num 5)], "a.jsonl"⟩,
               Event.write ⟨[("subject", Json.str "Math"), ("q", Json.num 6)], "a.jsonl"⟩],
            runnerError := none,
            summary := some { total_examples := 6, subjects := ["Math"],
                              subject_counts := [("Math", 6)],
                              output_path := "outputs/all-subjects.jsonl" } } ∧
    5 < 6 :=
  ⟨rfl, by omega⟩

/-- C5: output-path resolution. An explicit path is used as given (its
expansion/resolution is the identity in this model); otherwise the path is
`outputs/<stem>.jsonl` with stem `all-subjects` for no restriction, the
single lowercased name for one subject, and the lowercased names sorted and
joined with `-` otherwise. The resolution is a pure function of the two
inputs, and for the multi-subject stem it depends only on the multiset of
requested names (the sort makes it order-independent, hence deterministic). -/
theorem build_output_path_spec (subjects : Option (List String))
    (output_path : Option String) :
    (∀ p, output_path = some p → build_output_path subjects output_path = p) ∧
    build_output_path none none = "outputs/all-subjects.jsonl" ∧
    (∀ s, build_output_path (some [s]) none = "outputs/" ++ strLower s ++ ".jsonl") ∧
    (∀ ss, ss.length ≠ 1 →
      build_output_path (some ss) none =
        "outputs/" ++ "-".intercalate (sortedStrings (ss.map strLower)) ++ ".jsonl") ∧
    (∀ ss ss', ss.Perm ss' → ss.length ≠ 1 →
      build_output_path (some ss) none = build_output_path (some ss') none) := by
  have hmulti : ∀ ss : List String, ss.length ≠ 1 →
      build_output_path (some ss) none =
        "outputs/" ++ "-".intercalate (sortedStrings (ss.map strLower)) ++ ".jsonl" := by
    intro ss h
    show "outputs/" ++
        (if ss.length = 1 then strLower ss.headI
         else "-".intercalate (sortedStrings (ss.map strLower))) ++ ".jsonl" = _
    rw [if_neg h]
  refine ⟨?_, rfl, ?_, hmulti, ?_⟩
  · intro p hp
    rw [hp]
    rfl
  · intro s
    rfl
  · intro ss ss' hperm hlen
    have hlen' : ss'.length ≠ 1 := by
      rw [← hperm.length_eq]
      exact hlen
    rw [hmulti ss hlen, hmulti ss' hlen']
    rw [sortedStrings_eq_of_perm (hperm.map strLower)]

/-- C5 witness: requesting `{Math, BioMedicine}` with no explicit path
resolves to `outputs/biomedicine-math.jsonl` (lowercased, sorted, joined). -/
theorem build_output_path_spec_witness :
    build_output_path (some ["Math", "BioMedicine"]) none =
      "outputs/biomedicine-math.jsonl" :=
  (build_output_path_spec (some ["Math", "BioMedicine"]) none).2.2.2.1
    ["Math", "BioMedicine"] (by decide)

/-- C6: on a well-formed dataset the scanner is exactly: enumerate the
files in sorted (lexicographic path) order — a permutation of the directory
listing, sorted by name — and within each file turn each record line into
one `Example` tagged with that file's path, skipping blank lines, in file
order. The output stream is therefore fully determined by the directory
contents. -/
theorem scan_enumeration (ds : List DatasetFile)
    (hgood : ∀ f ∈ ds, ∀ l ∈ f.lines, lineOk l = true) :
    iter_examples ds none = .ok ((sortFiles ds).flatMap fileExamples) ∧
    (sortFiles ds).Perm ds ∧
    (sortFiles ds).Pairwise (fun a b => strLe a.name b.name = true) := by
  have hperm : (sortFiles ds).Perm ds := List.perm_insertionSort _ ds
  refine ⟨?_, hperm, ?_⟩
  · rw [iter_examples_def]
    exact go_none_good (fun f hf => hgood f (hperm.subset hf))
  · haveI : IsTotal DatasetFile (fun a b => strLe a.name b.name = true) :=
      ⟨fun a b => strLe_total a.name b.name⟩
    haveI : IsTrans DatasetFile (fun a b => strLe a.name b.name = true) :=
      ⟨fun _ _ _ => strLe_trans⟩
    exact List.sorted_insertionSort _ ds

/-- C6 witness: two files listed out of order, with a blank line; the scan
yields the sorted-by-name, blank-skipping, per-record stream. -/
theorem scan_enumeration_witness :
    iter_examples
      [⟨"b.jsonl", [Line.record [("subject", Json.str "Math")]]⟩,
       ⟨"a.jsonl", [Line.blank, Line.record [("subject", Json.str "Chem")],
                    Line.record [("subject", Json.str "Math")]]⟩] none =
      .ok ((sortFiles
        [⟨"b.jsonl", [Line.record [("subject", Json.str "Math")]]⟩,
         ⟨"a.jsonl", [Line.blank, Line.record [("subject", Json.str "Chem")],
                      Line.record [("subject", Json.str "Math")]]⟩]).flatMap
        fileExamples) ∧
    (sortFiles
      [⟨"b.jsonl", [Line.record [("subject", Json.str "Math")]]⟩,
       ⟨"a.jsonl", [Line.blank, Line.record [("subject", Json.str "Chem")],
                    Line.record [("subject", Json.str "Math")]]⟩]).Perm
      [⟨"b.jsonl", [Line.record [("subject", Json.str "Math")]]⟩,
       ⟨"a.jsonl", [Line.blank, Line.record [("subject", Json.str "Chem")],
                    Line.record [("subject", Json.str "Math")]]⟩] ∧
    (sortFiles
      [⟨"b.jsonl", [Line.record [("subject", Json.str "Math")]]⟩,
       ⟨"a.jsonl", [Line.blank, Line.record [("subject", Json.str "Chem")],
                    Line.record [("subject", Json.str "Math")]]⟩]).Pairwise
      (fun a b => strLe a.name b.name = true) :=
  scan_enumeration
    [⟨"b.jsonl", [Line.record [("subject", Json.str "Math")]]⟩,
     ⟨"a.jsonl", [Line.blank, Line.record [("subject", Json.str "Chem")],
                  Line.record [("subject", Json.str "Math")]]⟩]
    (by decide)

/-- C7: the scan of a dataset succeeds exactly when every line of every
file is blank or a JSON object with a `subject` key; the error a failing
scan raises does not depend on the subject filter (the checks run before
filtering, so they fire even for records the filter would drop); and each
error faithfully reports the offending file and 1-based line: invalid JSON
raises `MalformedRecord` and a parsed object without `subject` raises
`MissingSubjectField`, with no partial-record recovery (the result is the
error alone, never a partial list). -/
theorem scan_error_propagation (ds : List DatasetFile) (filt : Option (List String)) :
    ((∃ exs, iter_examples ds filt = .ok exs) ↔
      ∀ f ∈ ds, ∀ l ∈ f.lines, lineOk l = true) ∧
    (∀ err, iter_examples ds filt = .error err → iter_examples ds none = .error err) ∧
    (∀ fn m, iter_examples ds filt = .error (.malformedRecord fn m) →
      ∃ df ∈ ds, df.name = fn ∧ df.lines.get? (m - 1) = some Line.malformed) ∧
    (∀ fn m, iter_examples ds filt = .error (.missingSubjectField fn m) →
      ∃ df ∈ ds, df.name = fn ∧ ∃ p, df.lines.get? (m - 1) = some (Line.record p) ∧
        p.lookup "subject" = none) := by
  have hperm : (sortFiles ds).Perm ds := List.perm_insertionSort _ ds
  refine ⟨⟨?_, ?_⟩, ?_, ?_, ?_⟩
  · rintro ⟨exs, hexs⟩ f hf l hl
    rw [iter_examples_def] at hexs
    exact go_good_of_ok hexs f (hperm.symm.subset hf) l hl
  · intro hgood
    rw [iter_examples_def]
    exact go_ok_of_good (fun f hf => hgood f (hperm.subset hf))
  · intro err herr
    rw [iter_examples_def] at herr ⊢
    exact go_error_indep herr
  · intro fn m herr
    rw [iter_examples_def] at herr
    obtain ⟨df, hdf, hcase⟩ := go_error_sound herr
    rcases hcase with ⟨m', heq, hget⟩ | ⟨m', p, heq, _, _⟩
    · cases heq
      exact ⟨df, hperm.subset hdf, rfl, hget⟩
    · cases heq
  · intro fn m herr
    rw [iter_examples_def] at herr
    obtain ⟨df, hdf, hcase⟩ := go_error_sound herr
    rcases hcase with ⟨m', heq, _⟩ | ⟨m', p, heq, hget, hsub⟩
    · cases heq
    · cases heq
      exact ⟨df, hperm.subset hdf, rfl, p, hget, hsub⟩

/-- C7 witness: a malformed second line aborts the scan with
`MalformedRecord` at file `x.jsonl`, line 2, even though the requested
filter (`chemistry`) would have dropped every record in the file. -/
theorem scan_error_propagation_witness :
    ∃ df ∈ [(⟨"x.jsonl", [Line.record [("subject", Json.str "Math")],
                          Line.malformed]⟩ : DatasetFile)],
      df.name = "x.jsonl" ∧ df.lines.get? (2 - 1) = some Line.malformed :=
  (scan_error_propagation
    [⟨"x.jsonl", [Line.record [("subject", Json.str "Math")], Line.malformed]⟩]
    (some ["chemistry"])).2.2.1 "x.jsonl" 2 rfl

theorem guess_prompt_eq (payload : List (String × Json)) :
    guess_prompt payload =
      (promptValue payload "prompt").or ((promptValue payload "query").or
        ((promptValue payload "question").or (promptValue payload "input"))) := by
  unfold guess_prompt _PROMPT_FIELDS
  rw [List.findSome?_cons, List.findSome?_cons, List.findSome?_cons,
    List.findSome?_cons]
  cases promptValue payload "prompt" <;>
    cases promptValue payload "query" <;>
      cases promptValue payload "question" <;>
        cases promptValue payload "input" <;> rfl

/-- C8: `_guess_prompt` returns the value of the first field among
`prompt`, `query`, `question`, `input` — in exactly that priority order —
that yields a prompt (holds a string with non-blank content), and signals
the `MissingPromptField` condition (the raised `KeyError`, `none` here)
precisely when none of the four yields one. The condition belongs to
runner-side prompt extraction only: the scan/filter path succeeds on any
well-formed dataset regardless of prompt fields. -/
theorem guess_prompt_priority (payload : List (String × Json)) :
    (∀ v, guess_prompt payload = some v →
      ∃ i, i < _PROMPT_FIELDS.length ∧
        promptValue payload (_PROMPT_FIELDS.getD i "") = some v ∧
        ∀ j, j < i → promptValue payload (_PROMPT_FIELDS.getD j "") = none) ∧
    (guess_prompt payload = none ↔
      ∀ f ∈ _PROMPT_FIELDS, promptValue payload f = none) ∧
    (∀ ds filt, (∀ f ∈ ds, ∀ l ∈ f.lines, lineOk l = true) →
      ∃ exs, iter_examples ds filt = .ok exs) := by
  refine ⟨?_, ?_, ?_⟩
  · intro v hv
    rw [guess_prompt_eq] at hv
    cases h0 : promptValue payload "prompt" with
    | some w =>
      rw [h0] at hv
      cases hv
      exact ⟨0, by decide, h0, fun j hj => absurd hj (by omega)⟩
    | none =>
      rw [h0, Option.none_or] at hv
      cases h1 : promptValue payload "query" with
      | some w =>
        rw [h1] at hv
        cases hv
        refine ⟨1, by decide, h1, ?_⟩
        intro j hj
        have hj0 : j = 0 := by omega
        subst hj0
        exact h0
      | none =>
        rw [h1, Option.none_or] at hv
        cases h2 : promptValue payload "question" with
        | some w =>
          rw [h2] at hv
          cases hv
          refine ⟨2, by decide, h2, ?_⟩
          intro j hj
          match j, hj with
          | 0, _ => exact h0
          | 1, _ => exact h1
        | none =>
          rw [h2, Option.none_or] at hv
          refine ⟨3, by decide, hv, ?_⟩
          intro j hj
          match j, hj with
          | 0, _ => exact h0
          | 1, _ => exact h1
          | 2, _ => exact h2
  · rw [guess_prompt_eq]
    constructor
    · intro h f hf
      rw [Option.or_eq_none, Option.or_eq_none, Option.or_eq_none] at h
      obtain ⟨h0, h1, h2, h3⟩ := h
      simp only [_PROMPT_FIELDS, List.mem_cons, List.not_mem_nil, or_false] at hf
      rcases hf with rfl | rfl | rfl | rfl
      · exact h0
      · exact h1
      · exact h2
      · exact h3
    · intro h
      rw [h "prompt" (by simp [_PROMPT_FIELDS]),
        h "query" (by simp [_PROMPT_FIELDS]),
        h "question" (by simp [_PROMPT_FIELDS]),
        h "input" (by simp [_PROMPT_FIELDS])]
      rfl
  · intro ds filt hgood
    rw [iter_examples_def]
    exact go_ok_of_good
      (fun f hf => hgood f ((List.perm_insertionSort _ _).subset hf))

/-- C8 witness: with `prompt` present but blank and `query` holding text,
extraction returns the `query` value, i.e. the first field in priority
order that yields a prompt, with the earlier field yielding none. -/
theorem guess_prompt_priority_witness :
    ∃ i, i < _PROMPT_FIELDS.length ∧
      promptValue [("prompt", Json.str "  "), ("question", Json.num 3),
        ("query", Json.str "hi")] (_PROMPT_FIELDS.getD i "") = some "hi" ∧
      ∀ j, j < i → promptValue [("prompt", Json.str "  "), ("question", Json.num 3),
        ("query", Json.str "hi")] (_PROMPT_FIELDS.getD j "") = none :=
  (guess_prompt_priority
    [("prompt", Json.str "  "), ("question", Json.num 3),
     ("query", Json.str "hi")]).1 "hi" rfl

/-- C9: the subjects discovered by `discover_subjects` on a directory are a
sorted tuple of distinct subjects, and they contain (as a superset) every
subject appearing in the `RunSummary` of any subject-filtered run over the
same directory. -/
theorem discover_subjects_superset {ε : Type} (ds : List DatasetFile)
    (subs : List String) (filt : Option (List String)) (out : Option String)
    (runner : Option (Example → Except ε Unit)) (res : RunResult ε)
    (smry : RunSummary) (hdisc : discover_subjects ds = .ok subs)
    (hrun : run_experiments ds filt out runner = .ok res)
    (hsum : res.summary = some smry) :
    (∀ x ∈ smry.subjects, x ∈ subs) ∧
      subs.Pairwise (fun a b => strLe a b = true) ∧ subs.Nodup := by
  unfold discover_subjects at hdisc
  cases hall : iter_examples ds none with
  | error err => rw [hall] at hdisc; cases hdisc
  | ok allExs =>
    rw [hall] at hdisc
    simp only [Except.map] at hdisc
    cases hdisc
    obtain ⟨exs, hiter, _, _, herr1, herr2⟩ := run_ok_elim hrun
    cases hl : (writeLoop runner exs).2 with
    | some err =>
      rw [herr1 err hl] at hsum
      cases hsum
    | none =>
      rw [herr2 hl] at hsum
      cases hsum
      have hsub : ∀ e ∈ exs, e ∈ allExs := by
        rw [iter_examples_def] at hiter hall
        rw [show allowedSubjects none = none from rfl] at hall
        cases hA : allowedSubjects filt with
        | none =>
          rw [hA] at hiter
          rw [hiter] at hall
          cases hall
          intro e he
          exact he
        | some al =>
          rw [hA] at hiter
          exact fun e he => (go_filter_sublist hiter hall).subset he
      refine ⟨?_, sortedStrings_sorted _, (sortedStrings_perm _).nodup_iff.2 (firstDedup_nodup _)⟩
      intro x hx
      rw [mem_sortedStrings, mem_firstDedup] at hx ⊢
      obtain ⟨e, he, hex⟩ := List.mem_map.1 hx
      exact List.mem_map.2 ⟨e, hsub e he, hex⟩

/-- C9 witness: discovery over a two-subject corpus returns
`["Chem", "Math"]`, a sorted superset of the `["Math"]` observed by a run
filtered to `math`. -/
theorem discover_subjects_superset_witness :
    (∀ x ∈ (["Math"] : List String), x ∈ (["Chem", "Math"] : List String)) ∧
      (["Chem", "Math"] : List String).Pairwise (fun a b => strLe a b = true) ∧
      (["Chem", "Math"] : List String).Nodup :=
  discover_subjects_superset
    [⟨"a.jsonl", [Line.record [("subject", Json.str "Math")],
                  Line.record [("subject", Json.str "Chem")]]⟩]
    ["Chem", "Math"] (some ["math"]) none
    (none : Option (Example → Except Unit Unit))
    { events := [Event.write ⟨[("subject", Json.str "Math")], "a.jsonl"⟩],
      runnerError := none,
      summary := some { total_examples := 1, subjects := ["Math"],
                        subject_counts := [("Math", 1)],
                        output_path := "outputs/math.jsonl" } }
    { total_examples := 1, subjects := ["Math"],
      subject_counts := [("Math", 1)],
      output_path := "outputs/math.jsonl" }
    rfl rfl rfl

/-- The filter-relevant observables of a run: the write/invoke trace, the
runner error, and every summary field except the output path (the path
encodes the requested-subject stem, not the filtering behavior). -/
def projRun {ε : Type} (res : RunResult ε) :
    List Event × Option ε × Option (Nat × List String × List (String × Nat)) :=
  (res.events, res.runnerError,
    res.summary.map (fun s => (s.total_examples, s.subjects, s.subject_counts)))

/-- C10 (implicit): an empty subject sequence disables filtering entirely
rather than matching nothing: `iter_examples` yields exactly the unfiltered
stream, and `run_experiments` writes the same records, invokes the runner
identically and returns the same totals, subjects and counts as a run with
no filter at all. -/
theorem empty_filter_means_no_filter {ε : Type} (ds : List DatasetFile)
    (out : Option String) (runner : Option (Example → Except ε Unit)) :
    iter_examples ds (some []) = iter_examples ds none ∧
    (run_experiments ds (some []) out runner).map projRun =
      (run_experiments ds none out runner).map projRun := by
  constructor
  · rfl
  · rw [run_experiments_eq, run_experiments_eq]
    rw [show iter_examples ds (some []) = iter_examples ds none from rfl]
    cases hit : iter_examples ds none with
    | error err => rfl
    | ok exs =>
      simp only [Except.bind]
      cases hl : (writeLoop runner exs).2 with
      | some e => rfl
      | none => rfl
